import Mathlib

/-!
Shallow embedding of the day-9 "tile perimeter" solver (src/day9/src/main.rs).

Modelling conventions:
* Rust `i64` is modelled as `Int`; `u64` as `Nat` (the program's inputs are far
  from the overflow boundary, and no claim is about wrap-around behaviour).
* Rust `panic!` and `Result::Err` are both modelled as `Option.none` of the
  corresponding `Option`-returning Lean function.
* `rayon` parallel iterators (`par_iter` with `any` / `all` / `count`) compute
  the same pure predicate counts as their sequential counterparts, so they are
  embedded as ordinary `List` traversals.
* Rust `/` on `i64` truncates toward zero, so it is embedded as `Int.tdiv`.
* Rust `i64::isqrt` on a non-negative argument is `Nat.sqrt` on `toNat`.
-/

/-- `Tile` from day9: an integer coordinate pair (Rust struct `Tile { x: i64, y: i64 }`). -/
structure Tile where
  x : Int
  y : Int
deriving DecidableEq, Repr

/-- The direction tag of an edge (Rust enum `Direction`). -/
inductive Direction where
  | LR
  | RL
  | TB
  | BT
deriving DecidableEq, Repr

/-- `Direction::turn`: rotate 90 degrees clockwise. -/
def Direction.turn : Direction → Direction
  | .LR => .TB
  | .TB => .RL
  | .RL => .BT
  | .BT => .LR

/-- `Direction::is_inverse`. -/
def Direction.is_inverse (d other : Direction) : Bool :=
  match d with
  | .LR => other == .RL
  | .TB => other == .BT
  | .RL => other == .LR
  | .BT => other == .TB

/-- `Edge` from day9: a directed axis-aligned segment.  The Rust field `end`
is a Lean keyword, so it is named `endp` here. -/
structure Edge where
  start : Tile
  endp : Tile
  direction : Direction
deriving DecidableEq, Repr

/-- `Edge::new`.  The Rust function panics on a zero-length or non-axis-aligned
pair of points; the panic is modelled as `none`. -/
def Edge.new (start endp : Tile) : Option Edge :=
  if start.x = endp.x then
    if start.y > endp.y then
      some ⟨start, endp, Direction.BT⟩
    else if start.y = endp.y then
      none
    else
      some ⟨start, endp, Direction.TB⟩
  else if start.y = endp.y then
    if start.x > endp.x then
      some ⟨start, endp, Direction.RL⟩
    else if start.x = endp.x then
      none
    else
      some ⟨start, endp, Direction.LR⟩
  else
    none

/-- Floor square root of a natural number, modelling `i64::isqrt` on a
non-negative argument: the largest `k ≤ n` with `k * k ≤ n`.  (Written as a
filter over `0..n` instead of `Nat.sqrt` so that it reduces inside `decide`.) -/
def isqrt (n : Nat) : Nat :=
  ((List.range (n + 1)).filter (fun k => k * k ≤ n)).getLastD 0

/-- `Edge::length`: Euclidean length via `i64::isqrt` of the squared distance. -/
def Edge.length (e : Edge) : Int :=
  let x := (e.endp.x - e.start.x) ^ 2
  let y := (e.endp.y - e.start.y) ^ 2
  Int.ofNat (isqrt (x + y).toNat)

/-- `Edge::is_perpendicular`. -/
def Edge.is_perpendicular (e other : Edge) : Bool :=
  (e.start.x == e.endp.x && other.start.y == other.endp.y) ||
  (e.start.y == e.endp.y && other.start.x == other.endp.x)

/-- `Edge::intersects`: strict crossing test between two axis-aligned edges;
touching does not count. -/
def Edge.intersects (e other : Edge) : Bool :=
  let min_x := min e.start.x e.endp.x
  let min_y := min e.start.y e.endp.y
  let max_x := max e.start.x e.endp.x
  let max_y := max e.start.y e.endp.y
  if !(e.is_perpendicular other) then
    false
  else
    if min_x == max_x &&
        min other.start.x other.endp.x < min_x &&
        max other.endp.x other.start.x > max_x &&
        min_y < min other.start.y other.endp.y &&
        max_y > max other.endp.y other.start.y then
      true
    else if min_y == max_y &&
        min other.start.y other.endp.y < min_y &&
        max other.endp.y other.start.y > max_y &&
        min_x < min other.start.x other.endp.x &&
        max_x > max other.endp.x other.start.x then
      true
    else
      false

/-- `Rectangle` from day9: two opposite corner tiles. -/
structure Rectangle where
  tile_a : Tile
  tile_b : Tile
deriving DecidableEq, Repr

/-- `Rectangle::area_of_rectangle`: the Rust code computes
`(x1 - x2 + 1).abs() * (y1 - y2 + 1).abs()` (note: `+ 1` happens inside the
`abs`), converted to `u64`. -/
def Rectangle.area_of_rectangle (r : Rectangle) : Nat :=
  (r.tile_a.x - r.tile_b.x + 1).natAbs * (r.tile_a.y - r.tile_b.y + 1).natAbs

/-- `Rectangle::corners`: the four corners nudged inward by `nudge`. -/
def Rectangle.corners (r : Rectangle) (nudge : Int) : List Tile :=
  let min_x := min r.tile_a.x r.tile_b.x
  let max_x := max r.tile_a.x r.tile_b.x
  let min_y := min r.tile_a.y r.tile_b.y
  let max_y := max r.tile_a.y r.tile_b.y
  [ ⟨min_x + nudge, min_y + nudge⟩,
    ⟨min_x + nudge, max_y - nudge⟩,
    ⟨max_x - nudge, min_y + nudge⟩,
    ⟨max_x - nudge, max_y - nudge⟩ ]

/-- `Rectangle::edges`: the four boundary edges, built as literals with fixed
direction tags (exactly as the Rust code does, without going through
`Edge::new`). -/
def Rectangle.edges (r : Rectangle) : List Edge :=
  let tl_x := min r.tile_a.x r.tile_b.x
  let tl_y := min r.tile_a.y r.tile_b.y
  let tr_x := max r.tile_a.x r.tile_b.x
  let tr_y := tl_y
  let bl_x := tl_x
  let bl_y := max r.tile_a.y r.tile_b.y
  let br_x := tr_x
  let br_y := bl_y
  [ ⟨⟨tl_x, tl_y⟩, ⟨tr_x, tr_y⟩, Direction.LR⟩,
    ⟨⟨tr_x, tr_y⟩, ⟨br_x, br_y⟩, Direction.TB⟩,
    ⟨⟨br_x, br_y⟩, ⟨bl_x, bl_y⟩, Direction.RL⟩,
    ⟨⟨bl_x, bl_y⟩, ⟨tl_x, tl_y⟩, Direction.BT⟩ ]

/-- `Perimeter` from day9: an ordered list of edges. -/
structure Perimeter where
  edges : List Edge
deriving DecidableEq, Repr

/-- The ray-cast crossing count that `Perimeter::is_inside` computes (twice,
with identical code) for a test point: among the perimeter edges whose
direction tag is `TB` or `BT`, count those strictly to the right of the test
point whose half-open y-range `[min_y, max_y)` contains `test_y`. -/
def crossingCount (edges : List Edge) (test_x test_y : Int) : Nat :=
  ((edges.filter (fun pe =>
      pe.direction == Direction.TB || pe.direction == Direction.BT)).filter
    (fun pe =>
      let edge_x := pe.start.x
      if edge_x ≤ test_x then
        false
      else
        let edge_min_y := min pe.start.y pe.endp.y
        let edge_max_y := max pe.start.y pe.endp.y
        test_y ≥ edge_min_y && test_y < edge_max_y)).length

/-- `Perimeter::is_inside` for a candidate rectangle: (a) no rectangle edge may
strictly intersect a perimeter edge; (b) if some rectangle edge is shorter
than 3, ray-cast from the integer midpoint of the two corner tiles, otherwise
ray-cast from all four corners nudged inward by 1; a cast point passes when
its crossing count is odd. -/
def Perimeter.is_inside (P : Perimeter) (rect : Rectangle) : Bool :=
  if rect.edges.any (fun re => P.edges.any (fun pe => pe.intersects re)) then
    false
  else if rect.edges.any (fun e => e.length < 3) then
    let test_x := (rect.tile_a.x + rect.tile_b.x).tdiv 2
    let test_y := (rect.tile_a.y + rect.tile_b.y).tdiv 2
    crossingCount P.edges test_x test_y % 2 == 1
  else
    (rect.corners 1).all (fun corner =>
      crossingCount P.edges corner.x corner.y % 2 == 1)

/-- The edge-building loop of `Perimeter::new`: one edge per consecutive pair
of control points, starting from `cur`.  A panic inside `Edge::new` is
propagated as `none`. -/
def edgesFromLoop (cur : Tile) : List Tile → Option (List Edge)
  | [] => some []
  | cp :: rest =>
    match Edge.new cur cp, edgesFromLoop cp rest with
    | some e, some es => some (e :: es)
    | _, _ => none

/-- `Perimeter::new`: assumes the control points are already ordered; connects
consecutive points and closes the chain with a final edge back to the first
point.  Returns `none` when fewer than 2 points are given (the Rust guard is
`len() < 2`), and `none` where the Rust code would panic in `Edge::new`. -/
def Perimeter.new (control_points : List Tile) : Option Perimeter :=
  if control_points.length < 2 then
    none
  else
    match control_points with
    | [] => none
    | start :: remaining =>
      match edgesFromLoop start remaining with
      | none => none
      | some es =>
        let endp := (start :: remaining).getLastD start
        match Edge.new endp start with
        | none => none
        | some final_edge => some ⟨es ++ [final_edge]⟩

/-- `pair_up`: one rectangle for every pair of indices `i < j` of the tile
list, in the Rust iteration order. -/
def pair_up (tiles : List Tile) : List Rectangle :=
  (List.range tiles.length).flatMap (fun i =>
    match tiles.drop i with
    | [] => []
    | tile_a :: others => others.map (fun tile_b => Rectangle.mk tile_a tile_b))

/-! ### Input parsing (`Tile::from_string` and `parse_input`)

`Tile::from_string` matches the line against the regex
`^\s*(\d+)\s*,\s*(\d+)\s*$` and then parses both captures with
`i64::from_str`.  Because the character classes `\s` and `\d` are disjoint,
the regex is equivalent to the deterministic maximal-munch matcher below; the
classes are modelled at their ASCII core (the inputs are ASCII), and the only
way `i64::from_str` can fail on a `\d+` capture is overflow, modelled by the
bound `i64max`. -/

/-- The ASCII characters of the regex class `\s`. -/
def isWs (c : Char) : Bool :=
  c == ' ' || c == '\t' || c == '\n' || c == '\x0b' || c == '\x0c' || c == '\r'

/-- The ASCII characters of the regex class `\d`. -/
def isDig (c : Char) : Bool :=
  '0' ≤ c && c ≤ '9'

/-- Numeric value of a string of decimal digits, as `i64::from_str` computes it. -/
def digitsVal (cs : List Char) : Nat :=
  cs.foldl (fun n c => 10 * n + (c.toNat - 48)) 0

/-- `i64::MAX`. -/
def i64max : Nat := 9223372036854775807

/-- `Tile::from_string`: regex match plus `i64` parse; `Err` is modelled as
`none`. -/
def Tile.from_string (input : String) : Option Tile :=
  let cs := input.data
  let r0 := cs.dropWhile isWs
  let xs := r0.takeWhile isDig
  let r1 := r0.dropWhile isDig
  let r2 := r1.dropWhile isWs
  if xs.isEmpty then
    none
  else
    match r2 with
    | [] => none
    | c :: r3 =>
      if c = ',' then
        let r4 := r3.dropWhile isWs
        let ys := r4.takeWhile isDig
        let r5 := r4.dropWhile isDig
        let r6 := r5.dropWhile isWs
        if ys.isEmpty then
          none
        else if r6.isEmpty then
          if digitsVal xs ≤ i64max ∧ digitsVal ys ≤ i64max then
            some ⟨(digitsVal xs : Int), (digitsVal ys : Int)⟩
          else
            none
        else
          none
      else
        none

/-- Split a character list at every newline; every chunk except the last was
terminated by a newline in the input. -/
def splitNewlines : List Char → List (List Char)
  | [] => [[]]
  | c :: rest =>
    if c = '\n' then
      [] :: splitNewlines rest
    else
      match splitNewlines rest with
      | [] => [[c]]
      | l :: ls => (c :: l) :: ls

/-- Rust `str::lines`: split at `\n`, strip a carriage return at the end of
every newline-terminated chunk (`\r\n` line endings), and drop the final chunk
when it is empty (the final line ending is optional). -/
def rustLines (s : String) : List String :=
  let chunks := splitNewlines s.data
  let terminated := chunks.dropLast.map (fun l =>
    match l.getLast? with
    | some '\r' => l.dropLast
    | _ => l)
  match chunks.getLastD [] with
  | [] => terminated.map List.asString
  | finalChunk => (terminated ++ [finalChunk]).map List.asString

/-- `parse_input`: parse every line, short-circuiting to `none` (Rust collects
`Result`s into `Result<Vec<_>, _>`). -/
def parse_input (input : String) : Option (List Tile) :=
  (rustLines input).mapM Tile.from_string

/-! ### Spec-side definitions

The following definitions are written from the words of the specification (not
from the source); they exist so that the claims can be compared against the
embedded code. -/

/-- Spec-side crossing count for claim C2: the number of vertical perimeter
edges (identified by their coordinates) that lie strictly to the right of `p`
(`p.x < edge.x`) and whose half-open y-range satisfies
`min_y ≤ p.y < max_y`. -/
def specCrossingCount (edges : List Edge) (p : Tile) : Nat :=
  (edges.filter (fun e =>
    e.start.x == e.endp.x && p.x < e.start.x &&
    min e.start.y e.endp.y ≤ p.y && p.y < max e.start.y e.endp.y)).length

/-- Spec-side, claim C2: `p` lies exactly on the axis-aligned edge `e`. -/
def Edge.onEdge (e : Edge) (p : Tile) : Bool :=
  (e.start.x == e.endp.x && p.x == e.start.x &&
    min e.start.y e.endp.y ≤ p.y && p.y ≤ max e.start.y e.endp.y) ||
  (e.start.y == e.endp.y && p.y == e.start.y &&
    min e.start.x e.endp.x ≤ p.x && p.x ≤ max e.start.x e.endp.x)

/-- The point-in-polygon rule exactly as claim C2 words it: odd crossing count
OR the point lies exactly on some perimeter edge. -/
def claimPointInside (edges : List Edge) (p : Tile) : Bool :=
  specCrossingCount edges p % 2 == 1 || edges.any (fun e => e.onEdge p)

/-- The fallback rule exactly as claim C6 words it: both extreme corner points
of the rectangle pass the ray-cast point rule. -/
def claimExtremeCornersInside (edges : List Edge) (r : Rectangle) : Bool :=
  let min_x := min r.tile_a.x r.tile_b.x
  let max_x := max r.tile_a.x r.tile_b.x
  let min_y := min r.tile_a.y r.tile_b.y
  let max_y := max r.tile_a.y r.tile_b.y
  (crossingCount edges min_x min_y % 2 == 1) &&
  (crossingCount edges max_x max_y % 2 == 1)

/-- The integer midpoint of the rectangle's two corner tiles (Rust `/`
truncates toward zero). -/
def Rectangle.midpoint (r : Rectangle) : Tile :=
  ⟨(r.tile_a.x + r.tile_b.x).tdiv 2, (r.tile_a.y + r.tile_b.y).tdiv 2⟩

/-- An edge is well formed when it is one that `Edge::new` can produce: its
direction tag agrees with its coordinates.  Every edge of a perimeter built by
`Perimeter::new` is well formed. -/
def Edge.wf (e : Edge) : Prop :=
  Edge.new e.start e.endp = some e

instance (e : Edge) : Decidable e.wf := by
  unfold Edge.wf
  infer_instance

/-- Spec-side, claim C9: the line is an `x,y` integer pair with optional
surrounding whitespace (`x` and `y` written in their decimal notation). -/
def isIntegerPairLine (s : String) : Prop :=
  ∃ (x y : Int) (w1 w2 w3 w4 : List Char),
    s.data = w1 ++ (toString x).data ++ w2 ++ [','] ++ w3 ++ (toString y).data ++ w4 ∧
    (∀ c ∈ w1 ++ w2 ++ w3 ++ w4, isWs c = true)

/-- Spec-side, claim C9 (amended): the declarative form of the lines that the
day-9 regex-plus-parse accepts: whitespace, a nonempty digit run, whitespace,
a comma, whitespace, a nonempty digit run, whitespace, with both values within
`i64` range. -/
def matchesPairPattern (s : String) : Prop :=
  ∃ (w1 xs w2 w3 ys w4 : List Char),
    s.data = w1 ++ xs ++ w2 ++ [','] ++ w3 ++ ys ++ w4 ∧
    (∀ c ∈ w1, isWs c = true) ∧ (∀ c ∈ w2, isWs c = true) ∧
    (∀ c ∈ w3, isWs c = true) ∧ (∀ c ∈ w4, isWs c = true) ∧
    xs ≠ [] ∧ (∀ c ∈ xs, isDig c = true) ∧
    ys ≠ [] ∧ (∀ c ∈ ys, isDig c = true) ∧
    digitsVal xs ≤ i64max ∧ digitsVal ys ≤ i64max

/-- The control points of the repository's own end-to-end example. -/
def examplePts : List Tile :=
  [⟨7,1⟩, ⟨11,1⟩, ⟨11,7⟩, ⟨9,7⟩, ⟨9,5⟩, ⟨2,5⟩, ⟨2,3⟩, ⟨7,3⟩]

/-- The control points of the square perimeter of the overhang test. -/
def squarePts : List Tile :=
  [⟨0,0⟩, ⟨10,0⟩, ⟨10,10⟩, ⟨0,10⟩]

/-- The edges that `Perimeter.new squarePts` produces. -/
def squareEdges : List Edge :=
  [ ⟨⟨0,0⟩, ⟨10,0⟩, Direction.LR⟩,
    ⟨⟨10,0⟩, ⟨10,10⟩, Direction.TB⟩,
    ⟨⟨10,10⟩, ⟨0,10⟩, Direction.RL⟩,
    ⟨⟨0,10⟩, ⟨0,0⟩, Direction.BT⟩ ]

/-! ## Helper lemmas -/

/-- `Edge::new`, when it succeeds, keeps the two points it was given. -/
theorem Edge.new_some {a b : Tile} {e : Edge} (h : Edge.new a b = some e) :
    e.start = a ∧ e.endp = b := by
  unfold Edge.new at h
  split_ifs at h <;>
    first
      | (injection h with h2
         subst h2
         exact ⟨rfl, rfl⟩)
      | exact Option.noConfusion h

/-- A well-formed edge is vertical (equal x-coordinates) exactly when its
direction tag is `TB` or `BT`. -/
theorem Edge.wf_shape {e : Edge} (hw : e.wf) :
    (e.start.x = e.endp.x ∧ (e.direction = Direction.TB ∨ e.direction = Direction.BT)) ∨
    (e.start.x ≠ e.endp.x ∧ (e.direction = Direction.LR ∨ e.direction = Direction.RL)) := by
  unfold Edge.wf Edge.new at hw
  split_ifs at hw with h1 h2 h3 h4 h5 <;>
    first
      | exact Option.noConfusion hw
      | (injection hw with h6
         have hd := (congrArg Edge.direction h6).symm
         first
           | exact Or.inl ⟨h1, Or.inr hd⟩
           | exact Or.inl ⟨h1, Or.inl hd⟩
           | exact Or.inr ⟨h1, Or.inr hd⟩
           | exact Or.inr ⟨h1, Or.inl hd⟩)

/-- On a list of well-formed edges, the code's crossing count (which selects
vertical edges by direction tag) agrees with the specification's crossing
count (which selects vertical edges by coordinates). -/
theorem crossingCount_eq_spec (edges : List Edge) (hwf : ∀ e ∈ edges, e.wf) (p : Tile) :
    crossingCount edges p.x p.y = specCrossingCount edges p := by
  unfold crossingCount specCrossingCount
  rw [List.filter_filter]
  refine congrArg List.length (List.filter_congr ?_)
  intro e he
  rcases Edge.wf_shape (hwf e he) with ⟨hx, hd⟩ | ⟨hx, hd⟩
  · have hdir : (e.direction == Direction.TB || e.direction == Direction.BT) = true := by
      rcases hd with hd | hd <;> simp [hd]
    have hb : (!decide (e.endp.x ≤ p.x)) = decide (p.x < e.endp.x) := by
      rw [← decide_not, decide_eq_decide]
      omega
    simp [hdir, hx, hb, Bool.and_assoc]
  · have hdir : (e.direction == Direction.TB || e.direction == Direction.BT) = false := by
      rcases hd with hd | hd <;> simp [hd]
    simp [hdir, hx]

/-! ## Claim theorems -/

/-- Claim C1 (code bug): `area_of_rectangle` on the corner tiles `(0,0)` and
`(1,0)` evaluates to `0`, not to the claimed `(|0-1|+1) * (|0-0|+1) = 2`: the
code adds `1` before taking the absolute value. -/
theorem C1_area_code_eval :
    Rectangle.area_of_rectangle ⟨⟨0, 0⟩, ⟨1, 0⟩⟩ = 0 := by decide

/-- Claim C10 (code bug): `area_of_rectangle` is not symmetric under swapping
the two corners: `(0,0),(1,0)` gives `0` while `(1,0),(0,0)` gives `2`. -/
theorem C10_area_asymmetry_eval :
    Rectangle.area_of_rectangle ⟨⟨0, 0⟩, ⟨1, 0⟩⟩ = 0 ∧
    Rectangle.area_of_rectangle ⟨⟨1, 0⟩, ⟨0, 0⟩⟩ = 2 := by decide

/-- Claim C3 (confirmed): on the square perimeter built from
`(0,0),(10,0),(10,10),(0,10)`, the rectangle with corners `(0,0)` and
`(11,10)` is not reported as fully contained. -/
theorem C3_overhang_rejected :
    (Perimeter.new squarePts).map
      (fun P => P.is_inside ⟨⟨0, 0⟩, ⟨11, 10⟩⟩) = some false := by decide

/-- Claim C4 (confirmed): on the perimeter built from the example control
points, the maximum area over all paired-up rectangles that the containment
test reports as inside is 24. -/
theorem C4_example_max_area :
    (Perimeter.new examplePts).map (fun P =>
      (((pair_up examplePts).filter (fun r => P.is_inside r)).map
        Rectangle.area_of_rectangle).foldr max 0) = some 24 := by decide

/-- Claim C8 (confirmed): `Edge::new` fails exactly when the two points are
identical or differ in both coordinates; every other pair yields an edge. -/
theorem C8_edge_new_contract (a b : Tile) :
    Edge.new a b = none ↔ (a = b ∨ (a.x ≠ b.x ∧ a.y ≠ b.y)) := by
  obtain ⟨ax, ay⟩ := a
  obtain ⟨bx, b2⟩ := b
  simp only [Edge.new, Tile.mk.injEq]
  split_ifs with h1 h2 h3 h4 h5 h6 <;> simp <;> omega

/-- Claim C2 counterexample: on the square perimeter, the point `(10,5)` lies
exactly on the right boundary edge, so the claimed rule (odd crossings OR on a
boundary edge) reports inside, but the code's ray-cast reports outside: the
code has no boundary clause. -/
theorem C2_boundary_counterexample :
    (Perimeter.new squarePts).map (fun P =>
      ((crossingCount P.edges 10 5 % 2 == 1), claimPointInside P.edges ⟨10, 5⟩))
      = some (false, true) := by decide

/-- Claim C2 amended: on well-formed perimeter edges the code's point test
reports a point inside exactly when the number of vertical perimeter edges
strictly to its right whose half-open y-range `[min_y, max_y)` contains its y
is odd — with no boundary-inclusion clause. -/
theorem C2_point_rule_amended (edges : List Edge) (p : Tile)
    (hwf : ∀ e ∈ edges, e.wf) :
    ((crossingCount edges p.x p.y % 2 == 1) = true) ↔
      specCrossingCount edges p % 2 = 1 := by
  rw [crossingCount_eq_spec edges hwf p]
  simp

/-- Witness for `C2_point_rule_amended` at the square perimeter and the
interior point `(4,4)`. -/
theorem C2_point_rule_witness :
    specCrossingCount squareEdges ⟨4, 4⟩ % 2 = 1 :=
  (C2_point_rule_amended squareEdges ⟨4, 4⟩ (by decide)).mp (by decide)

/-- Claim C6 counterexample: on the square perimeter, the degenerate rectangle
`(9,5)-(10,5)` has an edge shorter than 3; the code reports it contained
(midpoint test), yet its extreme corner `(10,5)` fails the point rule — so the
claimed "test the two extreme corner points" fallback does not describe the
code. -/
theorem C6_fallback_counterexample :
    (Perimeter.new squarePts).map (fun P =>
      ((Rectangle.edges ⟨⟨9, 5⟩, ⟨10, 5⟩⟩).any (fun e => e.length < 3),
       P.is_inside ⟨⟨9, 5⟩, ⟨10, 5⟩⟩,
       claimExtremeCornersInside P.edges ⟨⟨9, 5⟩, ⟨10, 5⟩⟩))
      = some (true, true, false) := by decide

/-- Claim C6 amended: for a rectangle with an edge shorter than 3, the test
falls back to the single integer midpoint of the two corner tiles: the
rectangle is reported contained iff no rectangle edge intersects the perimeter
and the midpoint's crossing count (spec form, on well-formed edges) is odd. -/
theorem C6_fallback_amended (P : Perimeter) (rect : Rectangle)
    (hwf : ∀ e ∈ P.edges, e.wf)
    (hsmall : rect.edges.any (fun e => e.length < 3) = true) :
    P.is_inside rect =
      (!(rect.edges.any (fun re => P.edges.any (fun pe => pe.intersects re))) &&
        (specCrossingCount P.edges rect.midpoint % 2 == 1)) := by
  unfold Perimeter.is_inside
  by_cases hint : rect.edges.any (fun re => P.edges.any (fun pe => pe.intersects re)) = true
  · simp [hint]
  · have hint2 : rect.edges.any (fun re => P.edges.any (fun pe => pe.intersects re)) = false :=
      Bool.eq_false_iff.mpr hint
    have hmid := crossingCount_eq_spec P.edges hwf rect.midpoint
    unfold Rectangle.midpoint at hmid
    simp only [hint2, hsmall, if_true, if_false, Bool.false_eq_true, Bool.not_false,
      Bool.true_and]
    exact congrArg (fun n => n % 2 == 1) hmid

/-- Witness for `C6_fallback_amended` at the square perimeter and the
degenerate rectangle `(9,5)-(10,5)`. -/
theorem C6_fallback_witness :
    Perimeter.is_inside ⟨squareEdges⟩ ⟨⟨9, 5⟩, ⟨10, 5⟩⟩ =
      (!((Rectangle.edges ⟨⟨9, 5⟩, ⟨10, 5⟩⟩).any (fun re =>
          squareEdges.any (fun pe => pe.intersects re))) &&
        (specCrossingCount squareEdges (Rectangle.midpoint ⟨⟨9, 5⟩, ⟨10, 5⟩⟩) % 2 == 1)) :=
  C6_fallback_amended ⟨squareEdges⟩ ⟨⟨9, 5⟩, ⟨10, 5⟩⟩ (by decide) (by decide)

/-- Claim C7 counterexample: a list of exactly 2 (distinct, axis-aligned)
control points does not make `Perimeter::new` fail: the guard in the code is
`len() < 2`, not `len() < 3`. -/
theorem C7_two_points_counterexample :
    ([(⟨0, 0⟩ : Tile), ⟨5, 0⟩].length < 3) ∧
    (Perimeter.new [⟨0, 0⟩, ⟨5, 0⟩]).isSome = true := by decide

/-- Claim C7 amended: `Perimeter::new` returns `None` whenever fewer than 2
control points are given (the code's guard); 2 aligned points already succeed. -/
theorem C7_guard_amended (pts : List Tile) (h : pts.length < 2) :
    Perimeter.new pts = none := by
  unfold Perimeter.new
  rw [if_pos h]

/-- Witness for `C7_guard_amended` on the empty list. -/
theorem C7_guard_witness : Perimeter.new [] = none :=
  C7_guard_amended [] (by decide)

/-- The edge-building loop produces one edge per remaining control point. -/
theorem edgesFromLoop_length : ∀ (rest : List Tile) (cur : Tile) (es : List Edge),
    edgesFromLoop cur rest = some es → es.length = rest.length := by
  intro rest
  induction rest with
  | nil =>
    intro cur es h
    simp [edgesFromLoop] at h
    subst h
    rfl
  | cons cp rest ih =>
    intro cur es h
    rw [edgesFromLoop] at h
    cases hE : Edge.new cur cp with
    | none => rw [hE] at h; exact Option.noConfusion h
    | some e1 =>
      cases hL : edgesFromLoop cp rest with
      | none => rw [hE, hL] at h; exact Option.noConfusion h
      | some es1 =>
        rw [hE, hL] at h
        injection h with h2
        subst h2
        simp [ih cp es1 hL]

/-- The `j`-th edge built by the loop runs from the `j`-th control point to
the `j+1`-st. -/
theorem edgesFromLoop_getElem : ∀ (rest : List Tile) (cur : Tile) (es : List Edge),
    edgesFromLoop cur rest = some es → ∀ (j : Nat) (e : Edge), es[j]? = some e →
      (cur :: rest)[j]? = some e.start ∧ rest[j]? = some e.endp := by
  intro rest
  induction rest with
  | nil =>
    intro cur es h j e hj
    simp [edgesFromLoop] at h
    subst h
    simp at hj
  | cons cp rest ih =>
    intro cur es h j e hj
    rw [edgesFromLoop] at h
    cases hE : Edge.new cur cp with
    | none => rw [hE] at h; exact Option.noConfusion h
    | some e1 =>
      cases hL : edgesFromLoop cp rest with
      | none => rw [hE, hL] at h; exact Option.noConfusion h
      | some es1 =>
        rw [hE, hL] at h
        injection h with h2
        subst h2
        cases j with
        | zero =>
          simp only [List.getElem?_cons_zero, Option.some.injEq] at hj
          subst hj
          obtain ⟨hs, he2⟩ := Edge.new_some hE
          refine ⟨?_, ?_⟩ <;> simp [hs, he2]
        | succ j =>
          have hj2 : es1[j]? = some e := by simpa using hj
          obtain ⟨ha, hb⟩ := ih cp es1 hL j e hj2
          exact ⟨by simpa using ha, by simpa using hb⟩

/-- Claim C5 (confirmed): whenever `Perimeter::new` succeeds, its edge list is
a closed chain: `edges[i].end = edges[(i+1) % n].start` for every index `i`. -/
theorem C5_perimeter_closed_chain (pts : List Tile) (P : Perimeter)
    (h : Perimeter.new pts = some P) (i : Nat) (hi : i < P.edges.length) :
    (P.edges.get ⟨i, hi⟩).endp =
      (P.edges.get ⟨(i + 1) % P.edges.length,
        Nat.mod_lt (i + 1) (Nat.lt_of_le_of_lt (Nat.zero_le i) hi)⟩).start := by
  unfold Perimeter.new at h
  split_ifs at h with hlen
  cases pts with
    | nil => simp at hlen
    | cons start remaining =>
      dsimp only at h
      cases hL : edgesFromLoop start remaining with
      | none => rw [hL] at h; exact Option.noConfusion h
      | some es =>
        rw [hL] at h
        cases hF : Edge.new ((start :: remaining).getLastD start) start with
        | none => rw [hF] at h; exact Option.noConfusion h
        | some fe =>
          rw [hF] at h
          injection h with h2
          -- P = ⟨es ++ [fe]⟩
          subst h2
          have hlen2 : 1 ≤ remaining.length := by
            simp at hlen
            omega
          have hesl : es.length = remaining.length := edgesFromLoop_length remaining start es hL
          have hn : (es ++ [fe]).length = es.length + 1 := by simp
          -- notation
          set L := es ++ [fe] with hLdef
          have hfe : fe.start = (start :: remaining).getLastD start ∧ fe.endp = start :=
            Edge.new_some hF
          -- get as getElem?
          have hgoal : ∀ (a b : Edge), L[i]? = some a →
              L[(i + 1) % L.length]? = some b → a.endp = b.start →
              (L.get ⟨i, hi⟩).endp =
                (L.get ⟨(i + 1) % L.length,
                  Nat.mod_lt (i + 1) (Nat.lt_of_le_of_lt (Nat.zero_le i) hi)⟩).start := by
            intro a b ha hb hab
            have h1 : L[i]? = some (L.get ⟨i, hi⟩) := by
              simp [List.getElem?_eq_getElem hi]
            have h2 : L[(i + 1) % L.length]? =
                some (L.get ⟨(i + 1) % L.length,
                  Nat.mod_lt (i + 1) (Nat.lt_of_le_of_lt (Nat.zero_le i) hi)⟩) := by
              simp [List.getElem?_eq_getElem]
            rw [ha] at h1
            rw [hb] at h2
            injection h1 with h1
            injection h2 with h2
            rw [← h1, ← h2]
            exact hab
          have hiL : i < L.length := hi
          have hnL : L.length = es.length + 1 := hn
          by_cases hcase : i < es.length
          · -- edges from the loop
            have hai : L[i]? = es[i]? := List.getElem?_append_left hcase
            have haiv : es[i]? = some (es.get ⟨i, hcase⟩) := by
              simp [List.getElem?_eq_getElem hcase]
            obtain ⟨hstart_i, hend_i⟩ :=
              edgesFromLoop_getElem remaining start es hL i (es.get ⟨i, hcase⟩) haiv
            have hmod : (i + 1) % L.length = i + 1 := by
              apply Nat.mod_eq_of_lt
              omega
            by_cases hcase2 : i + 1 < es.length
            · -- successor also from the loop
              have hbi : L[i + 1]? = es[i + 1]? := List.getElem?_append_left hcase2
              have hbiv : es[i + 1]? = some (es.get ⟨i + 1, hcase2⟩) := by
                simp [List.getElem?_eq_getElem hcase2]
              obtain ⟨hstart_i1, _⟩ :=
                edgesFromLoop_getElem remaining start es hL (i + 1) (es.get ⟨i + 1, hcase2⟩) hbiv
              refine hgoal (es.get ⟨i, hcase⟩) (es.get ⟨i + 1, hcase2⟩)
                (by rw [hai]; exact haiv) (by rw [hmod, hbi]; exact hbiv) ?_
              -- remaining[i]? = some endp  and (start :: remaining)[i+1]? = some start2
              have h3 : remaining[i]? = some (es.get ⟨i + 1, hcase2⟩).start := by
                simpa using hstart_i1
              rw [hend_i] at h3
              exact Option.some.inj h3
            · -- successor is the closing edge
              have hieq : i + 1 = es.length := by omega
              have hbi : L[i + 1]? = some fe := by
                rw [hieq]
                exact List.getElem?_concat_length es fe
              refine hgoal (es.get ⟨i, hcase⟩) fe
                (by rw [hai]; exact haiv) (by rw [hmod]; exact hbi) ?_
              -- endp of last loop edge is the last control point
              have hlast : remaining[i]? = some (remaining.getLastD start) := by
                have hne : remaining ≠ [] := by
                  cases remaining with
                  | nil => simp at hlen2
                  | cons a l => simp
                have hi_eq : i = remaining.length - 1 := by omega
                rw [hi_eq]
                rw [← List.getLast?_eq_getElem?]
                cases hq : remaining.getLast? with
                | none => exact absurd (List.getLast?_eq_none_iff.mp hq) hne
                | some q =>
                  simp [List.getLastD_eq_getLast?, hq]
              rw [hend_i] at hlast
              injection hlast with hlast
              rw [hlast, hfe.1, List.getLastD_cons]
          · -- i is the closing edge
            have hieq : i = es.length := by omega
            have hai : L[i]? = some fe := by
              rw [hieq]
              exact List.getElem?_concat_length es fe
            have hmod : (i + 1) % L.length = 0 := by
              rw [hnL, hieq]
              exact Nat.mod_self _
            have hes_ne : 0 < es.length := by omega
            have hbi : L[0]? = es[0]? := List.getElem?_append_left hes_ne
            have hbiv : es[0]? = some (es.get ⟨0, hes_ne⟩) := by
              simp [List.getElem?_eq_getElem hes_ne]
            obtain ⟨hstart0, _⟩ :=
              edgesFromLoop_getElem remaining start es hL 0 (es.get ⟨0, hes_ne⟩) hbiv
            refine hgoal fe (es.get ⟨0, hes_ne⟩) hai (by rw [hmod, hbi]; exact hbiv) ?_
            have h4 : (start :: remaining)[0]? = some (es.get ⟨0, hes_ne⟩).start := hstart0
            simp at h4
            rw [hfe.2, h4]
            rfl

/-- Witness for `C5_perimeter_closed_chain` on the square perimeter at the
closing index. -/
theorem C5_closed_chain_witness :
    (squareEdges.get ⟨3, by decide⟩).endp = (squareEdges.get ⟨0, by decide⟩).start :=
  C5_perimeter_closed_chain squarePts ⟨squareEdges⟩ (by decide) 3 (by decide)

/-- The regex classes \s and \d are disjoint. -/
theorem isWs_not_isDig {c : Char} (h : isWs c = true) : isDig c = false := by
  unfold isWs at h
  simp at h
  rcases h with ((((rfl | rfl) | rfl) | rfl) | rfl) | rfl <;> decide

/-- The regex classes \d and \s are disjoint. -/
theorem isDig_not_isWs {c : Char} (h : isDig c = true) : isWs c = false := by
  cases hq : isWs c
  · rfl
  · rw [isWs_not_isDig hq] at h
    exact Bool.noConfusion h

/-- Every element of `takeWhile p` satisfies `p`. -/
theorem mem_takeWhile_pred {p : Char → Bool} {l : List Char} {a : Char}
    (h : a ∈ l.takeWhile p) : p a = true := by
  induction l with
  | nil => simp [List.takeWhile] at h
  | cons b t ih =>
    rw [List.takeWhile_cons] at h
    by_cases hb : p b
    · rw [if_pos hb] at h
      rcases List.mem_cons.mp h with rfl | h2
      · exact hb
      · exact ih h2
    · rw [if_neg hb] at h
      cases h

/-- Dropping whitespace consumes exactly a whitespace prefix. -/
theorem dropWhile_ws_append {w r : List Char} (hw : ∀ c ∈ w, isWs c = true)
    (hr : ∀ a, r.head? = some a → isWs a = false) :
    (w ++ r).dropWhile isWs = r := by
  induction w with
  | nil =>
    cases r with
    | nil => rfl
    | cons a t =>
      have := hr a rfl
      simp [List.dropWhile_cons, this]
  | cons b w ih =>
    have hb := hw b (List.mem_cons_self b w)
    rw [List.cons_append, List.dropWhile_cons]
    simp only [hb, if_true]
    exact ih (fun c hc => hw c (List.mem_cons_of_mem b hc))

/-- Taking digits consumes exactly a digit prefix. -/
theorem takeWhile_dig_append {xs r : List Char} (hx : ∀ c ∈ xs, isDig c = true)
    (hr : ∀ a, r.head? = some a → isDig a = false) :
    (xs ++ r).takeWhile isDig = xs ∧ (xs ++ r).dropWhile isDig = r := by
  induction xs with
  | nil =>
    cases r with
    | nil => exact ⟨rfl, rfl⟩
    | cons a t =>
      have := hr a rfl
      constructor <;> simp [List.takeWhile_cons, List.dropWhile_cons, this]
  | cons b xs ih =>
    have hb := hx b (List.mem_cons_self b xs)
    have ih2 := ih (fun c hc => hx c (List.mem_cons_of_mem b hc))
    rw [List.cons_append, List.takeWhile_cons, List.dropWhile_cons]
    simp only [hb, if_true]
    exact ⟨by rw [ih2.1], ih2.2⟩

/-- Dropping whitespace from an all-whitespace list leaves nothing. -/
theorem dropWhile_ws_nil {w : List Char} (hw : ∀ c ∈ w, isWs c = true) :
    w.dropWhile isWs = [] := by
  have : (w ++ ([] : List Char)).dropWhile isWs = [] :=
    dropWhile_ws_append hw (fun a ha => by simp at ha)
  simpa using this

/-- The executable line matcher accepts exactly the lines of the declarative
pattern `matchesPairPattern`. -/
theorem from_string_isSome_iff (s : String) :
    (Tile.from_string s).isSome ↔ matchesPairPattern s := by
  constructor
  · intro h
    unfold Tile.from_string at h
    dsimp only at h
    by_cases h1 : ((s.data.dropWhile isWs).takeWhile isDig).isEmpty
    · rw [if_pos h1] at h
      simp at h
    · rw [if_neg h1] at h
      cases hr2 : ((s.data.dropWhile isWs).dropWhile isDig).dropWhile isWs with
      | nil => rw [hr2] at h; simp at h
      | cons c r3 =>
        rw [hr2] at h
        dsimp only at h
        by_cases hc : c = ','
        · rw [if_pos hc] at h
          subst hc
          by_cases h2 : ((r3.dropWhile isWs).takeWhile isDig).isEmpty
          · rw [if_pos h2] at h; simp at h
          · rw [if_neg h2] at h
            by_cases h3 : (((r3.dropWhile isWs).dropWhile isDig).dropWhile isWs).isEmpty
            · rw [if_pos h3] at h
              by_cases h4 : digitsVal ((s.data.dropWhile isWs).takeWhile isDig) ≤ i64max ∧
                  digitsVal ((r3.dropWhile isWs).takeWhile isDig) ≤ i64max
              · -- build the decomposition
                refine ⟨s.data.takeWhile isWs,
                  (s.data.dropWhile isWs).takeWhile isDig,
                  ((s.data.dropWhile isWs).dropWhile isDig).takeWhile isWs,
                  r3.takeWhile isWs,
                  (r3.dropWhile isWs).takeWhile isDig,
                  ((r3.dropWhile isWs).dropWhile isDig).takeWhile isWs,
                  ?_, ?_, ?_, ?_, ?_, ?_, ?_, ?_, ?_, ?_, ?_⟩
                · -- the equation
                  simp only [List.append_assoc]
                  conv_lhs => rw [← List.takeWhile_append_dropWhile (p := isWs) (l := s.data)]
                  congr 1
                  conv_lhs => rw [← List.takeWhile_append_dropWhile (p := isDig)
                    (l := s.data.dropWhile isWs)]
                  congr 1
                  conv_lhs => rw [← List.takeWhile_append_dropWhile (p := isWs)
                    (l := (s.data.dropWhile isWs).dropWhile isDig)]
                  rw [hr2]
                  congr 1
                  show ',' :: r3 = [','] ++ (r3.takeWhile isWs ++
                    ((r3.dropWhile isWs).takeWhile isDig ++
                      ((r3.dropWhile isWs).dropWhile isDig).takeWhile isWs))
                  rw [List.singleton_append]
                  congr 1
                  conv_lhs => rw [← List.takeWhile_append_dropWhile (p := isWs) (l := r3)]
                  congr 1
                  conv_lhs => rw [← List.takeWhile_append_dropWhile (p := isDig)
                    (l := r3.dropWhile isWs)]
                  congr 1
                  have h5 : (((r3.dropWhile isWs).dropWhile isDig).dropWhile isWs) = [] :=
                    List.isEmpty_iff.mp h3
                  conv_lhs => rw [← List.takeWhile_append_dropWhile (p := isWs)
                    (l := (r3.dropWhile isWs).dropWhile isDig)]
                  rw [h5, List.append_nil]
                · exact fun c hc => mem_takeWhile_pred hc
                · exact fun c hc => mem_takeWhile_pred hc
                · exact fun c hc => mem_takeWhile_pred hc
                · exact fun c hc => mem_takeWhile_pred hc
                · intro hemp
                  rw [← List.isEmpty_iff] at hemp
                  exact h1 hemp
                · exact fun c hc => mem_takeWhile_pred hc
                · intro hemp
                  rw [← List.isEmpty_iff] at hemp
                  exact h2 hemp
                · exact fun c hc => mem_takeWhile_pred hc
                · exact h4.1
                · exact h4.2
              · rw [if_neg h4] at h
                simp at h
            · rw [if_neg h3] at h
              simp at h
        · rw [if_neg hc] at h
          simp at h
  · rintro ⟨w1, xs, w2, w3, ys, w4, hs, hw1, hw2, hw3, hw4, hxs_ne, hxs_dig,
      hys_ne, hys_dig, hbx, hby⟩
    unfold Tile.from_string
    dsimp only
    -- step 1: drop w1
    have hxs_head : ∀ a, (xs ++ (w2 ++ ([','] ++ (w3 ++ (ys ++ w4))))).head? = some a →
        isWs a = false := by
      intro a ha
      cases xs with
      | nil => exact absurd rfl hxs_ne
      | cons x xtl =>
        simp at ha
        subst ha
        exact isDig_not_isWs (hxs_dig x (List.mem_cons_self x xtl))
    have hs2 : s.data = w1 ++ (xs ++ (w2 ++ ([','] ++ (w3 ++ (ys ++ w4))))) := by
      rw [hs]
      simp only [List.append_assoc]
    have hstep1 : s.data.dropWhile isWs = xs ++ (w2 ++ ([','] ++ (w3 ++ (ys ++ w4)))) := by
      rw [hs2]
      exact dropWhile_ws_append hw1 hxs_head
    -- step 2: take/drop the first digit run
    have hrest1_head : ∀ a, (w2 ++ ([','] ++ (w3 ++ (ys ++ w4)))).head? = some a →
        isDig a = false := by
      intro a ha
      cases w2 with
      | nil =>
        simp at ha
        subst ha
        decide
      | cons b t =>
        simp at ha
        subst ha
        exact isWs_not_isDig (hw2 b (List.mem_cons_self b t))
    obtain ⟨htake1, hdrop1⟩ := takeWhile_dig_append hxs_dig hrest1_head
    -- step 3: drop w2, uncover the comma
    have hcomma_head : ∀ a, ([','] ++ (w3 ++ (ys ++ w4))).head? = some a → isWs a = false := by
      intro a ha
      simp at ha
      subst ha
      decide
    have hstep3 : (w2 ++ ([','] ++ (w3 ++ (ys ++ w4)))).dropWhile isWs =
        [','] ++ (w3 ++ (ys ++ w4)) :=
      dropWhile_ws_append hw2 hcomma_head
    -- step 4: drop w3
    have hys_head : ∀ a, (ys ++ w4).head? = some a → isWs a = false := by
      intro a ha
      cases ys with
      | nil => exact absurd rfl hys_ne
      | cons y ytl =>
        simp at ha
        subst ha
        exact isDig_not_isWs (hys_dig y (List.mem_cons_self y ytl))
    have hstep4 : (w3 ++ (ys ++ w4)).dropWhile isWs = ys ++ w4 :=
      dropWhile_ws_append hw3 hys_head
    -- step 5: take/drop the second digit run
    have hw4_head : ∀ a, (w4 : List Char).head? = some a → isDig a = false := by
      intro a ha
      cases w4 with
      | nil => simp at ha
      | cons b t =>
        simp at ha
        subst ha
        exact isWs_not_isDig (hw4 b (List.mem_cons_self b t))
    obtain ⟨htake2, hdrop2⟩ := takeWhile_dig_append hys_dig hw4_head
    -- step 6: the tail is all whitespace
    have hstep6 : (w4 : List Char).dropWhile isWs = [] := dropWhile_ws_nil hw4
    -- now evaluate
    have hxs_nonempty : (xs.isEmpty) = false := by
      cases xs with
      | nil => exact absurd rfl hxs_ne
      | cons x xtl => rfl
    have hys_nonempty : (ys.isEmpty) = false := by
      cases ys with
      | nil => exact absurd rfl hys_ne
      | cons y ytl => rfl
    rw [hstep1, htake1, hdrop1, hstep3]
    simp only [hxs_nonempty, Bool.false_eq_true, if_false, List.singleton_append]
    simp only [if_true]
    rw [hstep4, htake2, hdrop2]
    simp only [hstep6, hys_nonempty, Bool.false_eq_true, if_false, List.isEmpty_nil,
      if_true]
    rw [if_pos ⟨hbx, hby⟩]
    rfl

/-- If some line fails to parse, the whole `mapM` fails. -/
theorem mapM_from_string_none {l : List String} {a : String} (ha : a ∈ l)
    (hf : Tile.from_string a = none) : l.mapM Tile.from_string = none := by
  induction l with
  | nil => cases ha
  | cons b t ih =>
    rw [List.mapM_cons]
    rcases List.mem_cons.mp ha with rfl | ha2
    · rw [hf]
      rfl
    · cases hb : Tile.from_string b with
      | none => rfl
      | some v =>
        rw [ih ha2]
        rfl

/-- Claim C9 counterexample: the line `-1,2` is an `x,y` integer pair with no
surrounding whitespace, yet parsing fails: the regex digit class `\d+` admits
no minus sign. -/
theorem C9_negative_counterexample :
    Tile.from_string "-1,2" = none ∧ isIntegerPairLine "-1,2" := by
  refine ⟨by decide, ⟨-1, 2, [], [], [], [], by decide, by decide⟩⟩

/-- Claim C9 amended: a line parses exactly when it is whitespace, a nonempty
run of (ASCII) digits, whitespace, a comma, whitespace, a nonempty digit run
and whitespace, with both values at most `i64::MAX`; and any failing line
makes the whole input parse return an error (no partial list). -/
theorem C9_parse_amended :
    (∀ s : String, (Tile.from_string s).isSome ↔ matchesPairPattern s) ∧
    (∀ input : String, ∀ l ∈ rustLines input,
      Tile.from_string l = none → parse_input input = none) := by
  refine ⟨from_string_isSome_iff, ?_⟩
  intro input l hl hn
  unfold parse_input
  exact mapM_from_string_none hl hn

/-- Witness for `C9_parse_amended`: a concrete accepted line (via the pattern)
and a concrete input whose bad line aborts the whole parse. -/
theorem C9_parse_witness :
    (Tile.from_string " 12 , 34 ").isSome ∧ parse_input "3,4\n-1,2" = none := by
  constructor
  · exact (C9_parse_amended.1 " 12 , 34 ").mpr
      ⟨[' '], ['1', '2'], [' '], [' '], ['3', '4'], [' '], by decide⟩
  · exact C9_parse_amended.2 "3,4\n-1,2" "-1,2" (by decide) (by decide)

/-- Witness for `C8_edge_new_contract`: a zero-length pair fails, an aligned
distinct pair succeeds. -/
theorem C8_edge_contract_witness :
    Edge.new ⟨0, 0⟩ ⟨0, 0⟩ = none ∧ Edge.new ⟨0, 0⟩ ⟨5, 0⟩ ≠ none := by
  constructor
  · exact (C8_edge_new_contract ⟨0, 0⟩ ⟨0, 0⟩).mpr (Or.inl rfl)
  · intro hnone
    rcases (C8_edge_new_contract ⟨0, 0⟩ ⟨5, 0⟩).mp hnone with h | h
    · exact absurd h (by decide)
    · exact absurd h.2 (by decide)
